import Mathlib

/-!
Verification of the Gallery Pagination & Optimistic Reorder controller of the
Chagai.pro photography-portfolio repository.

The embedding below follows the TypeScript source:
* `src/lib/firebase.ts` — `getPaginatedImages`, `updateImageMetadata`,
  `deleteImages`, `uploadImage`;
* `src/components/Gallery.tsx` (paginated revision) — component state
  (`useState` hooks) and the handlers `handleDragEnd`, `handleUpdate`,
  `handleDelete`, `loadInitialImages`, `handleLoadMore`.

The remote Firestore collection is modelled as an association list of
document id / data pairs.  The Firestore query `orderBy('createdAt','desc')`
is modelled as sorting by `createdAt` descending with ties broken by
document id descending (Firestore appends the implicit `__name__`
tie-break in the direction of the last order clause); `startAfter(snap)`
is modelled as keeping the documents strictly after the cursor document in
that order.  Remote writes performed by the handlers are reified as a list
of `WriteOp` values so that "issues no remote write" is expressible.
-/

/-- The `ImageMetadata` document data (field `id` is kept separately as the
document key, mirroring `doc.id` vs `doc.data()` in the source). -/
structure ImageMeta where
  url : String
  fileName : String
  description : String
  labels : List String
  createdAt : String
  position : Int
deriving DecidableEq, Repr

/-- One document of the `images` collection: `(doc.id, doc.data())`. -/
abbrev ImageDoc := String × ImageMeta

/-- The remote `images` collection, as an association list keyed by doc id. -/
abbrev Remote := List ImageDoc

/-- A remote write issued by a handler (reified side effect). -/
inductive WriteOp where
  | updatePosition (id : String) (pos : Int)
  | updateMetadataOp (id : String) (description : String) (labels : List String)
  | setLoginBackground (url : String)
deriving DecidableEq, Repr

/-- JavaScript `s.split(',')` over the character sequence: fields between
commas, in order; the empty string yields `[""]`. -/
def splitCommaAux : List Char → List Char → List String
  | [], acc => [String.mk acc.reverse]
  | c :: rest, acc =>
    if c = ',' then String.mk acc.reverse :: splitCommaAux rest []
    else splitCommaAux rest (c :: acc)

/-- JavaScript `s.split(',')`. -/
def splitComma (s : String) : List String :=
  splitCommaAux s.data []

/-- JavaScript `s.trim()`: strip leading and trailing whitespace. -/
def trimString (s : String) : String :=
  String.mk (((s.data.dropWhile Char.isWhitespace).reverse.dropWhile
    Char.isWhitespace).reverse)

/-- `handleUpdate`'s label parsing:
`labels.split(',').map(label => label.trim()).filter(Boolean)`
(`filter(Boolean)` drops exactly the empty strings). -/
def parseLabels (labels : String) : List String :=
  ((splitComma labels).map trimString).filter (fun l => l != "")

/-- `uploadImage`'s document payload: the object literal written by
`setDoc(docRef, imageData)` with `description: ''`, `labels: []`,
`position: 0` (url, fileName, createdAt are the runtime inputs). -/
def uploadImageData (url fileName createdAt : String) : ImageMeta :=
  { url := url
    fileName := fileName
    description := ""
    labels := []
    createdAt := createdAt
    position := 0 }

/-- Strict lexicographic order on character sequences, the order the
gateway uses to compare string field values (codepoint by codepoint). -/
def charListLt : List Char → List Char → Bool
  | [], [] => false
  | [], _ :: _ => true
  | _ :: _, [] => false
  | a :: as, b :: bs =>
    if a < b then true else if b < a then false else charListLt as bs

/-- Strict string order as compared by the gateway. -/
def strLt (a b : String) : Bool :=
  charListLt a.data b.data

/-- Reflexive string order as compared by the gateway. -/
def strLe (a b : String) : Bool :=
  strLt a b || a == b

theorem charListLt_trans : ∀ a b c : List Char,
    charListLt a b = true → charListLt b c = true → charListLt a c = true
  | a, [], _, hab, _ => by cases a <;> simp [charListLt] at hab
  | _, _ :: _, [], _, hbc => by simp [charListLt] at hbc
  | [], _ :: _, _ :: _, _, _ => rfl
  | x :: xs, y :: ys, z :: zs, hab, hbc => by
    simp only [charListLt] at hab hbc ⊢
    rcases lt_trichotomy x y with hxy | hxy | hxy
    · rcases lt_trichotomy y z with hyz | hyz | hyz
      · rw [if_pos (lt_trans hxy hyz)]
      · subst hyz; rw [if_pos hxy]
      · rw [if_neg (asymm hyz), if_pos hyz] at hbc
        exact absurd hbc (by simp)
    · subst hxy
      rw [if_neg (lt_irrefl x), if_neg (lt_irrefl x)] at hab
      rcases lt_trichotomy x z with hxz | hxz | hxz
      · rw [if_pos hxz]
      · subst hxz
        rw [if_neg (lt_irrefl x), if_neg (lt_irrefl x)] at hbc ⊢
        exact charListLt_trans xs ys zs hab hbc
      · rw [if_neg (asymm hxz), if_pos hxz] at hbc
        exact absurd hbc (by simp)
    · rw [if_neg (asymm hxy), if_pos hxy] at hab
      exact absurd hab (by simp)

theorem charListLt_trichotomy : ∀ a b : List Char,
    charListLt a b = true ∨ a = b ∨ charListLt b a = true
  | [], [] => Or.inr (Or.inl rfl)
  | [], _ :: _ => Or.inl rfl
  | _ :: _, [] => Or.inr (Or.inr rfl)
  | x :: xs, y :: ys => by
    rcases lt_trichotomy x y with h | h | h
    · exact Or.inl (by simp [charListLt, h])
    · subst h
      rcases charListLt_trichotomy xs ys with h2 | h2 | h2
      · exact Or.inl (by simp [charListLt, lt_self_iff_false, h2])
      · exact Or.inr (Or.inl (by rw [h2]))
      · exact Or.inr (Or.inr (by simp [charListLt, lt_self_iff_false, h2]))
    · exact Or.inr (Or.inr (by simp [charListLt, h, asymm h]))

theorem strLt_trans (a b c : String) (hab : strLt a b = true)
    (hbc : strLt b c = true) : strLt a c = true :=
  charListLt_trans a.data b.data c.data hab hbc

theorem strLt_trichotomy (a b : String) :
    strLt a b = true ∨ a = b ∨ strLt b a = true := by
  rcases charListLt_trichotomy a.data b.data with h | h | h
  · exact Or.inl h
  · refine Or.inr (Or.inl ?_)
    cases a; cases b
    exact congrArg String.mk h
  · exact Or.inr (Or.inr h)

theorem strLe_total (a b : String) : strLe a b = true ∨ strLe b a = true := by
  rcases strLt_trichotomy a b with h | h | h
  · exact Or.inl (by simp [strLe, h])
  · exact Or.inl (by simp [strLe, h])
  · exact Or.inr (by simp [strLe, h])

theorem strLe_trans (a b c : String) (hab : strLe a b = true)
    (hbc : strLe b c = true) : strLe a c = true := by
  simp only [strLe, Bool.or_eq_true, beq_iff_eq] at hab hbc ⊢
  rcases hab with hab | hab
  · rcases hbc with hbc | hbc
    · exact Or.inl (strLt_trans a b c hab hbc)
    · exact Or.inl (hbc ▸ hab)
  · subst hab
    exact hbc

/-- The order produced by the gateway for `orderBy('createdAt', 'desc')`:
`a` comes no later than `b` when `a.createdAt` is strictly greater, or the
timestamps are equal and `a`'s document id is no smaller — Firestore
appends the implicit `__name__` tie-break with the direction of the last
`orderBy` clause, descending here.  `position` plays no role. -/
def createdAtIdLe (a b : ImageDoc) : Prop :=
  strLt b.2.createdAt a.2.createdAt = true ∨
    (b.2.createdAt = a.2.createdAt ∧ strLe b.1 a.1 = true)

instance : DecidableRel createdAtIdLe := fun a b => by
  unfold createdAtIdLe; infer_instance

instance : IsTotal ImageDoc createdAtIdLe where
  total a b := by
    rcases strLt_trichotomy a.2.createdAt b.2.createdAt with h | h | h
    · exact Or.inr (Or.inl h)
    · rcases strLe_total b.1 a.1 with h1 | h1
      · exact Or.inl (Or.inr ⟨h.symm, h1⟩)
      · exact Or.inr (Or.inr ⟨h, h1⟩)
    · exact Or.inl (Or.inl h)

instance : IsTrans ImageDoc createdAtIdLe where
  trans a b c hab hbc := by
    rcases hab with h1 | ⟨e1, i1⟩
    · rcases hbc with h2 | ⟨e2, _⟩
      · exact Or.inl (strLt_trans _ _ _ h2 h1)
      · exact Or.inl (e2 ▸ h1)
    · rcases hbc with h2 | ⟨e2, i2⟩
      · exact Or.inl (e1 ▸ h2)
      · exact Or.inr ⟨e2.trans e1, strLe_trans _ _ _ i2 i1⟩

/-- `startAfter(cursor)` under the `createdAt desc, __name__ desc` order:
keep documents strictly after the cursor document's `(createdAt, id)` sort
position. -/
def docAfter (cur d : ImageDoc) : Bool :=
  strLt d.2.createdAt cur.2.createdAt ||
    (d.2.createdAt == cur.2.createdAt && strLt d.1 cur.1)

/-- Result shape of `getPaginatedImages` (`PaginatedImagesResult`). -/
structure PaginatedImagesResult where
  images : List ImageDoc
  lastVisible : Option ImageDoc
  hasMore : Bool
deriving DecidableEq, Repr

/-- `getPaginatedImages(pageSize, lastVisible, category)`:
`where('labels','array-contains',category)` when a category is given, then
`orderBy('createdAt','desc')` (the `position` ordering is commented out in
the source), then `startAfter(lastVisible)` when a cursor is given, then
`limit(pageSize)`; `lastVisible` of the result is the last returned
document (or `null`), and `hasMore` is `docs.length === pageSize`. -/
def getPaginatedImages (remote : Remote) (pageSize : Nat)
    (lastVisible : Option ImageDoc) (category : Option String) :
    PaginatedImagesResult :=
  let filtered := match category with
    | none => remote
    | some c => remote.filter (fun p => p.2.labels.contains c)
  let sorted := List.insertionSort createdAtIdLe filtered
  let afterCursor := match lastVisible with
    | none => sorted
    | some cur => sorted.filter (fun p => docAfter cur p)
  let docs := afterCursor.take pageSize
  { images := docs
    lastVisible := docs.getLast?
    hasMore := docs.length == pageSize }

/-- The Gallery component's `useState` hooks (paginated revision); field
defaults are the `useState` initial values. -/
structure GalleryState where
  images : List ImageDoc := []
  loading : Bool := true
  loadingMore : Bool := false
  error : Option String := none
  isAdmin : Bool := false
  editingImage : Option String := none
  selectedImages : List String := []
  isSelectionMode : Bool := false
  selectedCategory : Option String := none
  categories : List String := []
  lastVisible : Option ImageDoc := none
  hasMore : Bool := true
deriving DecidableEq, Repr

/-- JavaScript `Array.from(new Set(xs))`: deduplicate keeping the first
occurrence of each element, preserving insertion order. -/
def dedupFirst (seen : List String) : List String → List String
  | [] => []
  | a :: rest =>
    if a ∈ seen then dedupFirst seen rest
    else a :: dedupFirst (a :: seen) rest

/-- `updateCategories` / the category extraction in `loadInitialImages`:
concatenate all labels of the loaded images and deduplicate. -/
def categoriesOf (images : List ImageDoc) : List String :=
  dedupFirst [] (images.foldl (fun acc p => acc ++ p.2.labels) [])

/-- The splice pair in `handleDragEnd`:
`const [removed] = arr.splice(source.index, 1); arr.splice(destination.index, 0, removed)`
(for in-range indices; out-of-range indices are outside the drag-and-drop
library's contract and are left as the identity). -/
def spliceReorder (l : List ImageDoc) (src dest : Nat) : List ImageDoc :=
  match l.get? src with
  | none => l
  | some removed => (l.eraseIdx src).insertIdx dest removed

/-- `.map((image, index) => ({ ...image, position: index }))` starting the
index count at `index`: assign each record's `position` its list index. -/
def renumberFrom (index : Nat) : List ImageDoc → List ImageDoc
  | [] => []
  | p :: rest =>
    (p.1, { p.2 with position := (index : Int) }) :: renumberFrom (index + 1) rest

/-- `handleDragEnd(result)`: return immediately when
`!result.destination || !isAdmin`; otherwise splice the dragged record
from `source.index` to `destination.index`, renumber every record's
`position` to its new index, store the renumbered list with `setImages`,
and issue one `updateDoc(..., { position })` per record. -/
def handleDragEnd (s : GalleryState) (destination : Option Nat) (source : Nat) :
    GalleryState × List WriteOp :=
  match destination with
  | none => (s, [])
  | some dest =>
    if s.isAdmin = false then (s, [])
    else
      let updatedImages := renumberFrom 0 (spliceReorder s.images source dest)
      ({ s with images := updatedImages },
       updatedImages.map (fun p => WriteOp.updatePosition p.1 p.2.position))

/-- `handleUpdate(imageId, description, labels)`, success path: parse the
labels string, issue the `updateImageMetadata` write, patch the matching
record in the local list, and close the inline editor.  The handler never
consults `isAdmin`. -/
def handleUpdate (s : GalleryState) (imageId description labels : String) :
    GalleryState × List WriteOp :=
  let updatedLabels := parseLabels labels
  ({ s with
      images := s.images.map (fun p =>
        if p.1 = imageId then
          (p.1, { p.2 with description := description, labels := updatedLabels })
        else p)
      editingImage := none },
   [WriteOp.updateMetadataOp imageId description updatedLabels])

/-- `loadInitialImages` when `getPaginatedImages` succeeds with `result`:
store the page, the cursor and the `hasMore` flag, clear the error, refresh
the category list, and drop the loading flag. -/
def loadInitialSuccess (s : GalleryState) (result : PaginatedImagesResult) :
    GalleryState :=
  { s with
      images := result.images
      lastVisible := result.lastVisible
      hasMore := result.hasMore
      error := none
      categories := categoriesOf result.images
      loading := false }

/-- `loadInitialImages` when `getPaginatedImages` throws: the `catch` block
sets the error message and the `finally` block drops the loading flag;
every other field is left untouched. -/
def loadInitialFailure (s : GalleryState) : GalleryState :=
  { s with
      error := some "Failed to load images. Please try again later."
      loading := false }

/-- `handleLoadMore` when the fetch succeeds: guarded by
`if (!hasMore || loadingMore) return`, then append the new page, advance
the cursor and `hasMore`, and merge the new categories. -/
def handleLoadMoreSuccess (s : GalleryState) (result : PaginatedImagesResult) :
    GalleryState :=
  if s.hasMore = false ∨ s.loadingMore = true then s
  else
    { s with
        images := s.images ++ result.images
        lastVisible := result.lastVisible
        hasMore := result.hasMore
        categories := dedupFirst []
          (s.categories ++ result.images.foldl (fun acc p => acc ++ p.2.labels) [])
        loadingMore := false }

/-- `handleLoadMore` when the fetch throws: the `catch` block only calls
`console.error` and the `finally` block drops `loadingMore`; no other field
changes — in particular no error state is set. -/
def handleLoadMoreFailure (s : GalleryState) : GalleryState :=
  if s.hasMore = false ∨ s.loadingMore = true then s
  else { s with loadingMore := false }

/-- `lookupDoc`: `getDoc(doc(db, 'images', imageId))` against the modelled
collection. -/
def lookupDoc (remote : Remote) (imageId : String) : Option ImageMeta :=
  (remote.find? (fun p => p.1 == imageId)).map (fun p => p.2)

/-- `deleteDoc(doc(db, 'images', imageId))`. -/
def deleteDocById (remote : Remote) (imageId : String) : Remote :=
  remote.filter (fun p => p.1 != imageId)

/-- Outcome of `deleteImages`: the final state of the remote collection and
whether the call threw. -/
structure DeleteOutcome where
  remote : Remote
  failed : Bool
deriving DecidableEq, Repr

/-- `deleteImages(imageIds)`: for each id in order, read the document
(`continue` when it no longer exists), delete the blob
(`deleteObject(ref(storage, imageData.url))`), then delete the document.
The whole loop sits in one `try`: the first throwing blob or document
deletion aborts the loop and rethrows, leaving later ids unattempted.
`blobOk` and `docOk` model which gateway deletions succeed. -/
def deleteImages (blobOk : String → Bool) (docOk : String → Bool) :
    List String → Remote → DeleteOutcome
  | [], remote => ⟨remote, false⟩
  | imageId :: rest, remote =>
    match lookupDoc remote imageId with
    | none => deleteImages blobOk docOk rest remote
    | some imageData =>
      if blobOk imageData.url = false then ⟨remote, true⟩
      else if docOk imageId = false then ⟨remote, true⟩
      else deleteImages blobOk docOk rest (deleteDocById remote imageId)

/-- `handleDelete(imageId)`: after the `confirm` dialog, call
`deleteImages([imageId])`; on success filter the record out of the local
list, on failure only alert (local list untouched). -/
def handleDelete (blobOk docOk : String → Bool) (s : GalleryState)
    (remote : Remote) (imageId : String) (confirmed : Bool) :
    GalleryState × Remote :=
  if confirmed = false then (s, remote)
  else
    let out := deleteImages blobOk docOk [imageId] remote
    if out.failed then (s, out.remote)
    else ({ s with images := s.images.filter (fun p => p.1 != imageId) }, out.remote)

/-- C6: for every raw comma-separated labels string passed to the metadata
editor, the persisted list is the input split on commas, trimmed, with
empty entries dropped and duplicates preserved; on "a, b ,  , b" it is
exactly ["a", "b", "b"]. -/
theorem parseLabels_spec :
    (∀ s : String,
      parseLabels s = ((splitComma s).map trimString).filter (fun l => l != "")) ∧
    parseLabels "a, b ,  , b" = ["a", "b", "b"] := by
  constructor
  · intro s; rfl
  · decide

/-- C10: every uploaded record is written with `position = 0`, an empty
description and an empty labels list, so any two uploads share the same
(position 0) value. -/
theorem uploadImageData_fields :
    ∀ url fileName createdAt url' fileName' createdAt' : String,
      (uploadImageData url fileName createdAt).position = 0 ∧
      (uploadImageData url fileName createdAt).description = "" ∧
      (uploadImageData url fileName createdAt).labels = [] ∧
      (uploadImageData url fileName createdAt).position =
        (uploadImageData url' fileName' createdAt').position := by
  intro _ _ _ _ _ _
  exact ⟨rfl, rfl, rfl, rfl⟩

/-- Removing the element at an in-range index and re-inserting it at the
same index restores the list. -/
theorem insertIdx_eraseIdx_get :
    ∀ (l : List ImageDoc) (i : Nat) (x : ImageDoc), l.get? i = some x →
      (l.eraseIdx i).insertIdx i x = l
  | [], i, x, h => by simp at h
  | a :: t, 0, x, h => by
    simp only [List.get?_cons_zero, Option.some.injEq] at h
    simp [h]
  | a :: t, i + 1, x, h => by
    simp only [List.get?_cons_succ] at h
    simpa [List.eraseIdx_cons_succ, List.insertIdx_succ_cons] using
      insertIdx_eraseIdx_get t i x h

/-- C1: a successful `getPaginatedImages` call returns `hasMore = true`
exactly when the page is full (`records.length === pageSize`), returns the
last returned record as the next cursor when at least one record is
returned and `null` otherwise, and a call returning zero records yields
`hasMore = false`, terminating pagination. -/
theorem getPaginatedImages_hasMore_iff (remote : Remote) (pageSize : Nat)
    (cursor : Option ImageDoc) (category : Option String) (hn : 0 < pageSize) :
    ((getPaginatedImages remote pageSize cursor category).hasMore = true ↔
      (getPaginatedImages remote pageSize cursor category).images.length = pageSize) ∧
    (∀ h : (getPaginatedImages remote pageSize cursor category).images ≠ [],
      (getPaginatedImages remote pageSize cursor category).lastVisible =
        some ((getPaginatedImages remote pageSize cursor category).images.getLast h)) ∧
    ((getPaginatedImages remote pageSize cursor category).images = [] →
      (getPaginatedImages remote pageSize cursor category).lastVisible = none ∧
      (getPaginatedImages remote pageSize cursor category).hasMore = false) := by
  refine ⟨?_, ?_, ?_⟩
  · simp [getPaginatedImages]
  · intro h
    simp only [getPaginatedImages] at h ⊢
    exact List.getLast?_eq_getLast_of_ne_nil h
  · intro h
    simp only [getPaginatedImages] at h ⊢
    rw [h]
    refine ⟨rfl, ?_⟩
    cases pageSize with
    | zero => exact absurd hn (lt_irrefl 0)
    | succ n => rfl

theorem getPaginatedImages_hasMore_iff_witness :
    (getPaginatedImages [("a", ⟨"u", "f", "", [], "2024", 0⟩)] 1 none none).hasMore = true ↔
      (getPaginatedImages [("a", ⟨"u", "f", "", [], "2024", 0⟩)] 1 none none).images.length = 1 :=
  (getPaginatedImages_hasMore_iff [("a", ⟨"u", "f", "", [], "2024", 0⟩)] 1 none none
    (by decide)).1

/-- `renumberFrom` preserves the length of the list. -/
theorem renumberFrom_length (index : Nat) (l : List ImageDoc) :
    (renumberFrom index l).length = l.length := by
  induction l generalizing index with
  | nil => rfl
  | cons p rest ih => simp [renumberFrom, ih]

/-- Element `i` of `renumberFrom k l` is element `i` of `l` with its
`position` overwritten by `k + i`. -/
theorem renumberFrom_get (index : Nat) (l : List ImageDoc) (i : Nat)
    (h : i < (renumberFrom index l).length) (h' : i < l.length) :
    (renumberFrom index l).get ⟨i, h⟩ =
      ((l.get ⟨i, h'⟩).1,
        { (l.get ⟨i, h'⟩).2 with position := ((index + i : Nat) : Int) }) := by
  induction l generalizing index i with
  | nil => exact absurd h' (Nat.not_lt_zero i)
  | cons p rest ih =>
    cases i with
    | zero => simp [renumberFrom]
    | succ j =>
      have hj : j < (renumberFrom (index + 1) rest).length := by
        simpa [renumberFrom] using h
      have hj' : j < rest.length := Nat.lt_of_succ_lt_succ h'
      have hrec := ih (index + 1) j hj hj'
      have harith : index + 1 + j = index + (j + 1) := by omega
      simp only [renumberFrom, List.get_cons_succ]
      rw [hrec, harith]

/-- C2: a successful admin `reorder(sourceIndex, destinationIndex)` with
valid indices yields the old sequence with the dragged record removed and
reinserted, every record's `position` renumbered to its new zero-based
index, and the record ids in the spliced order. -/
theorem handleDragEnd_reorders (s : GalleryState) (src dest : Nat)
    (hadmin : s.isAdmin = true) (hs : src < s.images.length)
    (hd : dest < s.images.length) :
    spliceReorder s.images src dest =
      (s.images.eraseIdx src).insertIdx dest (s.images.get ⟨src, hs⟩) ∧
    (handleDragEnd s (some dest) src).1.images =
      renumberFrom 0 (spliceReorder s.images src dest) ∧
    (∀ i (h : i < (handleDragEnd s (some dest) src).1.images.length)
        (h' : i < (spliceReorder s.images src dest).length),
      ((handleDragEnd s (some dest) src).1.images.get ⟨i, h⟩).1 =
        ((spliceReorder s.images src dest).get ⟨i, h'⟩).1) ∧
    (∀ i (h : i < (handleDragEnd s (some dest) src).1.images.length),
      ((handleDragEnd s (some dest) src).1.images.get ⟨i, h⟩).2.position = (i : Int)) := by
  have hget : s.images.get? src = some (s.images.get ⟨src, hs⟩) :=
    List.get?_eq_get hs
  have hsplice : spliceReorder s.images src dest =
      (s.images.eraseIdx src).insertIdx dest (s.images.get ⟨src, hs⟩) := by
    simp only [spliceReorder]
    rw [hget]
  have himg : (handleDragEnd s (some dest) src).1.images =
      renumberFrom 0 (spliceReorder s.images src dest) := by
    simp [handleDragEnd, hadmin]
  refine ⟨hsplice, himg, ?_, ?_⟩
  · intro i h h'
    have hr : i < (renumberFrom 0 (spliceReorder s.images src dest)).length := by
      rw [renumberFrom_length]; exact h'
    rw [List.get_of_eq himg ⟨i, h⟩, renumberFrom_get 0 _ i hr h']
  · intro i h
    have h' : i < (spliceReorder s.images src dest).length := by
      have hlen := congrArg List.length himg
      rw [renumberFrom_length] at hlen
      omega
    have hr : i < (renumberFrom 0 (spliceReorder s.images src dest)).length := by
      rw [renumberFrom_length]; exact h'
    rw [List.get_of_eq himg ⟨i, h⟩, renumberFrom_get 0 _ i hr h']
    simp

/-- A concrete two-record admin state used to witness the reorder claims. -/
def twoImageAdminState : GalleryState :=
  { images := [("a", ⟨"u", "f", "", [], "2024", 0⟩), ("b", ⟨"v", "g", "", [], "2023", 1⟩)]
    isAdmin := true }

theorem handleDragEnd_reorders_witness :
    spliceReorder twoImageAdminState.images 0 1 =
      ((twoImageAdminState.images.eraseIdx 0).insertIdx 1
        (twoImageAdminState.images.get ⟨0, by decide⟩)) ∧
    (handleDragEnd twoImageAdminState (some 1) 0).1.images =
      renumberFrom 0 (spliceReorder twoImageAdminState.images 0 1) :=
  ⟨(handleDragEnd_reorders twoImageAdminState 0 1 (by decide) (by decide) (by decide)).1,
   (handleDragEnd_reorders twoImageAdminState 0 1 (by decide) (by decide) (by decide)).2.1⟩

/-- A one-record admin state whose record's stored `position` (7) differs
from its index (0). -/
def oneImageAdminState : GalleryState :=
  { images := [("a", ⟨"u", "f", "", [], "2024", 7⟩)]
    isAdmin := true }

/-- C3 (counterexample): an admin drop with `destination.index` equal to
`source.index` is not a no-op — `handleDragEnd` only short-circuits on an
absent destination or a non-admin caller, so a same-index drop still
renumbers positions (changing local state when positions were not already
canonical) and issues a remote write per record. -/
theorem handleDragEnd_same_index_counterexample :
    (handleDragEnd oneImageAdminState (some 0) 0).2 ≠ [] ∧
    (handleDragEnd oneImageAdminState (some 0) 0).1.images ≠
      oneImageAdminState.images := by
  decide

/-- C3 (amended): an admin `reorder(i, i)` with a valid index leaves the
record order unchanged but renumbers every record's `position` to its index
and issues one remote write per loaded record; only an absent drop target
(or a non-admin caller) returns immediately with no remote write and no
state change. -/
theorem handleDragEnd_same_index (s : GalleryState) (i : Nat)
    (hadmin : s.isAdmin = true) (hi : i < s.images.length) :
    (handleDragEnd s (some i) i).1.images = renumberFrom 0 s.images ∧
    (handleDragEnd s (some i) i).2.length = s.images.length ∧
    (∀ t : GalleryState, ∀ src : Nat, handleDragEnd t none src = (t, [])) := by
  have hget : s.images.get? i = some (s.images.get ⟨i, hi⟩) := List.get?_eq_get hi
  have hsplice : spliceReorder s.images i i = s.images := by
    simp only [spliceReorder]
    rw [hget]
    exact insertIdx_eraseIdx_get s.images i _ hget
  refine ⟨?_, ?_, fun t src => rfl⟩
  · simp [handleDragEnd, hadmin, hsplice]
  · simp [handleDragEnd, hadmin, hsplice, renumberFrom_length]

theorem handleDragEnd_same_index_witness :
    (handleDragEnd oneImageAdminState (some 0) 0).1.images =
      renumberFrom 0 oneImageAdminState.images ∧
    (handleDragEnd oneImageAdminState (some 0) 0).2.length =
      oneImageAdminState.images.length :=
  ⟨(handleDragEnd_same_index oneImageAdminState 0 (by decide) (by decide)).1,
   (handleDragEnd_same_index oneImageAdminState 0 (by decide) (by decide)).2.1⟩

/-- A one-record state whose admin check returned false. -/
def oneImageNonAdminState : GalleryState :=
  { images := [("a", ⟨"u", "f", "", [], "2024", 0⟩)]
    isAdmin := false }

/-- C5 (counterexample): `handleUpdate` never consults the admin flag, so a
caller with `isAdmin = false` who invokes the metadata update still issues
the remote `updateImageMetadata` write and still changes the local list —
the universal "every mutating operation causes no remote write and no local
state change for non-admins" fails for it (only the UI withholds the
affordance; the same holds for `handleDelete` and `handleSetAsBackground`). -/
theorem handleUpdate_nonAdmin_counterexample :
    oneImageNonAdminState.isAdmin = false ∧
    (handleUpdate oneImageNonAdminState "a" "new caption" "x,y").2 ≠ [] ∧
    (handleUpdate oneImageNonAdminState "a" "new caption" "x,y").1.images ≠
      oneImageNonAdminState.images := by
  decide

/-- C5 (amended): the reorder handler is the mutating operation that checks
admin status itself: a non-admin `handleDragEnd` invocation returns
immediately with no remote write and no local state change. -/
theorem handleDragEnd_nonAdmin (s : GalleryState) (destination : Option Nat)
    (source : Nat) (h : s.isAdmin = false) :
    handleDragEnd s destination source = (s, []) := by
  cases destination with
  | none => rfl
  | some d => simp [handleDragEnd, h]

theorem handleDragEnd_nonAdmin_witness :
    handleDragEnd oneImageNonAdminState (some 0) 0 = (oneImageNonAdminState, []) :=
  handleDragEnd_nonAdmin oneImageNonAdminState (some 0) 0 (by decide)

/-- C7 (amended): every fetch failure (initial load or load-more) preserves
the previously loaded records, the pagination cursor and the `hasMore`
flag; the failed initial load reports the recoverable error message, while
a failed load-more leaves the error state exactly as it was (it only logs
to the console). -/
theorem fetchFailure_preserves_state (s : GalleryState) :
    (loadInitialFailure s).images = s.images ∧
    (loadInitialFailure s).lastVisible = s.lastVisible ∧
    (loadInitialFailure s).hasMore = s.hasMore ∧
    (loadInitialFailure s).error =
      some "Failed to load images. Please try again later." ∧
    (handleLoadMoreFailure s).images = s.images ∧
    (handleLoadMoreFailure s).lastVisible = s.lastVisible ∧
    (handleLoadMoreFailure s).hasMore = s.hasMore ∧
    (handleLoadMoreFailure s).error = s.error := by
  refine ⟨rfl, rfl, rfl, rfl, ?_, ?_, ?_, ?_⟩ <;>
    · simp only [handleLoadMoreFailure]
      split <;> rfl

/-- A state as left by a successful full first page: records loaded,
`hasMore = true`, no error, not currently loading more — the state in which
`handleLoadMore` proceeds to fetch. -/
def loadedPageState : GalleryState :=
  { images := [("a", ⟨"u", "f", "", [], "2024", 0⟩)]
    loading := false
    hasMore := true
    loadingMore := false
    error := none }

/-- C7 (counterexample): a load-more fetch that fails reports no
recoverable error state to the presentation layer — starting from a loaded
page with `error = none` and `hasMore = true` (so the fetch is attempted),
the failure path leaves `error = none`; only the initial-load failure sets
the error state. -/
theorem handleLoadMoreFailure_counterexample :
    loadedPageState.hasMore = true ∧
    loadedPageState.loadingMore = false ∧
    (handleLoadMoreFailure loadedPageState).error = none := by
  decide

/-- C8: deleting a record whose document no longer exists in the remote
collection skips it without raising: `deleteImages` returns with no
failure and the remote collection unchanged, and the corresponding
`handleDelete` leaves no record with that id in the local list. -/
theorem deleteImages_missing_doc (blobOk docOk : String → Bool)
    (s : GalleryState) (remote : Remote) (imageId : String)
    (h : lookupDoc remote imageId = none) :
    deleteImages blobOk docOk [imageId] remote = ⟨remote, false⟩ ∧
    (handleDelete blobOk docOk s remote imageId true).2 = remote ∧
    ∀ p ∈ (handleDelete blobOk docOk s remote imageId true).1.images,
      p.1 ≠ imageId := by
  have hdel : deleteImages blobOk docOk [imageId] remote = ⟨remote, false⟩ := by
    simp [deleteImages, h]
  refine ⟨hdel, ?_, ?_⟩
  · simp [handleDelete, hdel]
  · intro p hp
    simp [handleDelete, hdel, List.mem_filter] at hp
    exact hp.2

theorem deleteImages_missing_doc_witness :
    deleteImages (fun _ => true) (fun _ => true) ["a"]
      [("b", ⟨"v", "g", "", [], "2023", 1⟩)] =
      ⟨[("b", ⟨"v", "g", "", [], "2023", 1⟩)], false⟩ ∧
    (handleDelete (fun _ => true) (fun _ => true) oneImageAdminState
      [("b", ⟨"v", "g", "", [], "2023", 1⟩)] "a" true).2 =
      [("b", ⟨"v", "g", "", [], "2023", 1⟩)] :=
  ⟨(deleteImages_missing_doc (fun _ => true) (fun _ => true) oneImageAdminState
      [("b", ⟨"v", "g", "", [], "2023", 1⟩)] "a" (by decide)).1,
   (deleteImages_missing_doc (fun _ => true) (fun _ => true) oneImageAdminState
      [("b", ⟨"v", "g", "", [], "2023", 1⟩)] "a" (by decide)).2.1⟩

/-- `deleteImages` over a concatenated id list: process the first part; if
it threw, the second part is never attempted, otherwise continue on the
resulting collection. -/
theorem deleteImages_append (blobOk docOk : String → Bool)
    (l1 l2 : List String) (remote : Remote) :
    deleteImages blobOk docOk (l1 ++ l2) remote =
      (if (deleteImages blobOk docOk l1 remote).failed
       then deleteImages blobOk docOk l1 remote
       else deleteImages blobOk docOk l2 (deleteImages blobOk docOk l1 remote).remote) := by
  induction l1 generalizing remote with
  | nil => simp [deleteImages]
  | cons imageId rest ih =>
    simp only [List.cons_append, deleteImages]
    cases hl : lookupDoc remote imageId with
    | none => exact ih remote
    | some img =>
      by_cases hb : blobOk img.url = false
      · simp [hb]
      · by_cases hdoc : docOk imageId = false
        · simp [hb, hdoc]
        · simp only [hb, hdoc, Bool.false_eq_true, ite_false]
          exact ih (deleteDocById remote imageId)

/-- Documents whose id is not in the requested list survive `deleteImages`
(whether or not the run failed part-way). -/
theorem mem_deleteImages_remote (blobOk docOk : String → Bool) :
    ∀ (ids : List String) (remote : Remote) (p : ImageDoc),
      p ∈ remote → p.1 ∉ ids →
      p ∈ (deleteImages blobOk docOk ids remote).remote
  | [], _, _, hp, _ => hp
  | imageId :: rest, remote, p, hp, hids => by
    have hne : p.1 ≠ imageId := fun h => hids (h ▸ List.mem_cons_self _ _)
    have hrest : p.1 ∉ rest := fun h => hids (List.mem_cons_of_mem _ h)
    simp only [deleteImages]
    cases hl : lookupDoc remote imageId with
    | none => exact mem_deleteImages_remote blobOk docOk rest remote p hp hrest
    | some img =>
      by_cases hb : blobOk img.url = false
      · simpa [hb] using hp
      · by_cases hdoc : docOk imageId = false
        · simpa [hb, hdoc] using hp
        · simp only [hb, hdoc, Bool.false_eq_true, ite_false]
          refine mem_deleteImages_remote blobOk docOk rest _ p ?_ hrest
          simp [deleteDocById, List.mem_filter, hp, hne]

/-- C9: when `deleteImages` hits an existing record whose blob or document
deletion fails, the whole batch throws at that point: the ids before it
remain deleted (the resulting collection is the one the clean prefix
produced, which still contains every document not named in the prefix),
the failing id and everything after it are not deleted, and the ids after
it are never attempted (the result does not depend on them). -/
theorem deleteImages_midFailure (blobOk docOk : String → Bool)
    (pre post : List String) (bad : String) (remote r1 : Remote)
    (img : ImageMeta)
    (hpre : deleteImages blobOk docOk pre remote = ⟨r1, false⟩)
    (hlook : lookupDoc r1 bad = some img)
    (hfail : blobOk img.url = false ∨ docOk bad = false) :
    deleteImages blobOk docOk (pre ++ bad :: post) remote = ⟨r1, true⟩ ∧
    (∀ p ∈ remote, p.1 ∉ pre → p ∈ r1) := by
  constructor
  · rw [deleteImages_append, hpre]
    simp only [Bool.false_eq_true, ite_false, deleteImages, hlook]
    rcases hfail with hb | hdoc
    · simp [hb]
    · by_cases hb2 : blobOk img.url = false
      · simp [hb2]
      · simp [hb2, hdoc]
  · intro p hp hnp
    have hmem := mem_deleteImages_remote blobOk docOk pre remote p hp hnp
    rw [hpre] at hmem
    exact hmem

/-- The three-record collection used to witness the mid-batch failure. -/
def threeDocRemote : Remote :=
  [("a", ⟨"ua", "fa", "", [], "2024", 0⟩),
   ("b", ⟨"ub", "fb", "", [], "2023", 1⟩),
   ("c", ⟨"uc", "fc", "", [], "2022", 2⟩)]

theorem deleteImages_midFailure_witness :
    deleteImages (fun u => u != "ub") (fun _ => true) (["a"] ++ "b" :: ["c"])
      threeDocRemote =
      ⟨[("b", ⟨"ub", "fb", "", [], "2023", 1⟩),
        ("c", ⟨"uc", "fc", "", [], "2022", 2⟩)], true⟩ :=
  (deleteImages_midFailure (fun u => u != "ub") (fun _ => true) ["a"] ["c"] "b"
    threeDocRemote
    [("b", ⟨"ub", "fb", "", [], "2023", 1⟩), ("c", ⟨"uc", "fc", "", [], "2022", 2⟩)]
    ⟨"ub", "fb", "", [], "2023", 1⟩
    (by decide) (by decide) (Or.inl (by decide))).1

/-- Overwrite a document's `position` field as a function of its id,
leaving id, labels and `createdAt` untouched. -/
def setPosition (f : String → Int) (p : ImageDoc) : ImageDoc :=
  (p.1, { p.2 with position := f p.1 })

/-- `orderedInsert` under `createdAtIdLe` commutes with a position
rewrite, since the order never reads `position`. -/
theorem orderedInsert_setPosition (f : String → Int) (a : ImageDoc) :
    ∀ l : List ImageDoc,
      List.orderedInsert createdAtIdLe (setPosition f a) (l.map (setPosition f)) =
        (List.orderedInsert createdAtIdLe a l).map (setPosition f)
  | [] => rfl
  | b :: t => by
    by_cases h : createdAtIdLe a b
    · have h2 : createdAtIdLe (setPosition f a) (setPosition f b) := h
      simp only [List.map_cons, List.orderedInsert, if_pos h, if_pos h2]
    · have h2 : ¬createdAtIdLe (setPosition f a) (setPosition f b) := h
      simp only [List.map_cons, List.orderedInsert, if_neg h, if_neg h2]
      rw [orderedInsert_setPosition f a t]

/-- `insertionSort` under `createdAtIdLe` commutes with a position
rewrite. -/
theorem insertionSort_setPosition (f : String → Int) :
    ∀ l : List ImageDoc,
      List.insertionSort createdAtIdLe (l.map (setPosition f)) =
        (List.insertionSort createdAtIdLe l).map (setPosition f)
  | [] => rfl
  | b :: t => by
    simp only [List.map_cons, List.insertionSort]
    rw [insertionSort_setPosition f t, orderedInsert_setPosition]

/-- C4 (amended): the client-visible sequence returned by
`getPaginatedImages` is ordered by `createdAt` descending alone (ties by
document id, the gateway's implicit tie-break); `position` is not a sort
key: the result is `createdAtIdLe`-sorted, and rewriting every document's
`position` arbitrarily permutes nothing — the query returns the same
records in the same order with only their `position` fields rewritten. -/
theorem getPaginatedImages_order_ignores_position (remote : Remote)
    (pageSize : Nat) (cursor : Option ImageDoc) (category : Option String)
    (f : String → Int) :
    List.Sorted createdAtIdLe
      (getPaginatedImages remote pageSize cursor category).images ∧
    (getPaginatedImages (remote.map (setPosition f)) pageSize
        (cursor.map (setPosition f)) category).images =
      ((getPaginatedImages remote pageSize cursor category).images.map
        (setPosition f)) := by
  constructor
  · simp only [getPaginatedImages]
    have hs : List.Sorted createdAtIdLe
        (List.insertionSort createdAtIdLe
          (match category with
           | none => remote
           | some c => remote.filter (fun p => p.2.labels.contains c))) :=
      List.sorted_insertionSort createdAtIdLe _
    cases cursor with
    | none => exact List.Pairwise.sublist (List.take_sublist _ _) hs
    | some cur =>
      exact List.Pairwise.sublist
        ((List.take_sublist _ _).trans (List.filter_sublist _)) hs
  · have hfiltered :
        (match category with
         | none => remote.map (setPosition f)
         | some c => (remote.map (setPosition f)).filter
             (fun p => p.2.labels.contains c)) =
        ((match category with
          | none => remote
          | some c => remote.filter (fun p => p.2.labels.contains c)).map
          (setPosition f)) := by
      cases category with
      | none => rfl
      | some c => exact List.filter_map (setPosition f) remote
    simp only [getPaginatedImages, hfiltered, insertionSort_setPosition]
    cases cursor with
    | none => exact (List.map_take _ _ _).symm
    | some cur =>
      simp only [Option.map_some']
      have hpred : ((fun p => docAfter (setPosition f cur) p) ∘ setPosition f) =
          (fun p => docAfter cur p) := rfl
      rw [List.filter_map (setPosition f), hpred, List.map_take]

/-- Two records sharing one `createdAt` instant whose stored `position`
values disagree with the document-id tie-break order. -/
def tiedRemote : Remote :=
  [("a", ⟨"u", "f", "", [], "2024-01-01T00:00:00.000Z", 0⟩),
   ("b", ⟨"v", "g", "", [], "2024-01-01T00:00:00.000Z", 1⟩)]

/-- C4 (counterexample): `position` is not a secondary sort key — with two
records of equal `createdAt`, the fetched sequence returns the record with
`position` 1 before the record with `position` 0 (the `orderBy('position')`
clause is commented out in `getPaginatedImages`; pages follow `createdAt`
with the document-id tie-break only). -/
theorem getPaginatedImages_position_counterexample :
    (getPaginatedImages tiedRemote 12 none none).images.map
        (fun p => p.2.position) = [1, 0] ∧
    (getPaginatedImages tiedRemote 12 none none).images.map
        (fun p => p.2.createdAt) =
      ["2024-01-01T00:00:00.000Z", "2024-01-01T00:00:00.000Z"] := by
  decide
